import Mathlib

/-!
Shallow embedding of the `EnhancedStorageManager` class of `src/app.js`
(a browser task-management app's storage/caching layer) and proofs about
the behaviour its specification claims.

Modelling conventions, chosen once and used throughout:

* JavaScript runtime values are modelled by `JVal` (JSON values plus
  `undefined` for JavaScript's `undefined`).  Numbers are modelled as `Int`
  (all numbers appearing in the embedded code paths are integers; no
  float arithmetic occurs in the storage layer).
* `localStorage` is modelled as an association list `LS` from string
  keys to the JSON parse of the stored string.  `setItem` replaces the
  first occurrence in place or appends (insertion order enumeration,
  matching a concrete browser's behaviour); `removeItem` filters;
  `key(i)` enumeration order is list order.  Storing the parsed value
  rather than the string identifies `JSON.stringify` with the identity
  on serializable values, which is faithful because stringify/parse is
  a bijection on the JSON values `JVal` represents.
* Wall-clock time (`Date.now()`) is a `Nat` parameter `now` threaded
  into each operation; `new Date().toISOString()` is modelled as an
  injective rendering `isoOf now` of the same clock.
* `localStorage.setItem` can throw (quota exceeded or otherwise); the
  environment decides.  Operations that perform a raw write take an
  `Option JsErr` argument describing the environment's behaviour for
  that write (`none` = the write succeeds).
* Property access `o.p` on `null`/`undefined` throws `TypeError`; on
  other non-objects it yields `undefined`.  `jPropE` models this in
  `Except`; `jPropD` is the total variant used where the base value is
  known to be a non-null object.
-/

namespace ESM

/-- JavaScript runtime values reachable in the storage layer: JSON
values plus `undefined`. -/
inductive JVal where
  | undefined : JVal
  | null : JVal
  | bool (b : Bool) : JVal
  | num (n : Int) : JVal
  | str (s : String) : JVal
  | arr (elems : List JVal) : JVal
  | obj (fields : List (String × JVal)) : JVal

/-- JavaScript errors distinguished by the embedded code
(`_handleStorageError` tests `error.name === 'QuotaExceededError'`). -/
inductive JsErr where
  | quotaExceeded : JsErr
  | typeError : JsErr
  | other : JsErr
deriving DecidableEq

mutual

/-- Structural equality on `JVal`.  Models JavaScript `SameValueZero`
(`Set.has`) and `===` at the points where the source compares record
ids; ids compared in the embedded paths are primitives, on which
structural and JS equality agree. -/
def jvEq : JVal → JVal → Bool
  | .undefined, .undefined => true
  | .null, .null => true
  | .bool a, .bool b => a == b
  | .num a, .num b => a == b
  | .str a, .str b => a == b
  | .arr a, .arr b => jvEqList a b
  | .obj a, .obj b => jvEqFields a b
  | _, _ => false

/-- Elementwise `jvEq` on arrays. -/
def jvEqList : List JVal → List JVal → Bool
  | [], [] => true
  | x :: xs, y :: ys => jvEq x y && jvEqList xs ys
  | _, _ => false

/-- Fieldwise `jvEq` on objects. -/
def jvEqFields : List (String × JVal) → List (String × JVal) → Bool
  | [], [] => true
  | (k, v) :: xs, (k2, v2) :: ys => k == k2 && jvEq v v2 && jvEqFields xs ys
  | _, _ => false

end

/-- JavaScript truthiness (`Boolean(v)`):  `undefined`, `null`,
`false`, `0` and `""` are falsy, everything else is truthy. -/
def jsTruthy : JVal → Bool
  | .undefined => false
  | .null => false
  | .bool b => b
  | .num n => n != 0
  | .str s => !(s == "")
  | .arr _ => true
  | .obj _ => true

/-- JavaScript falsiness (`!v`). -/
def jsFalsy (v : JVal) : Bool := !jsTruthy v

/-- Strict test `v === null`.  `undefined !== null` in JavaScript, so
only `null` itself passes. -/
def jvIsNull : JVal → Bool
  | .null => true
  | _ => false

/-- `Array.isArray(v)`. -/
def jvIsArr : JVal → Bool
  | .arr _ => true
  | _ => false

/-- `typeof v === 'object'` (true for objects, arrays and `null`). -/
def typeofObject : JVal → Bool
  | .obj _ => true
  | .arr _ => true
  | .null => true
  | _ => false

/-- First-match lookup in an association list, modelling both
`Map.get` and reading a named property of an object literal. -/
def alistFind {α : Type} : List (String × α) → String → Option α
  | [], _ => none
  | p :: rest, k => if p.1 = k then some p.2 else alistFind rest k

/-- `Map.set` / property assignment: replace the value of the first
entry with the given key in place, or append a new entry. -/
def alistSet {α : Type} : List (String × α) → String → α → List (String × α)
  | [], k, v => [(k, v)]
  | p :: rest, k, v => if p.1 = k then (k, v) :: rest else p :: alistSet rest k v

/-- `Map.delete` / `localStorage.removeItem`: drop every entry with
the given key. -/
def alistRemove {α : Type} (l : List (String × α)) (k : String) : List (String × α) :=
  l.filter (fun p => p.1 ≠ k)

/-- Property access `base[k]`: throws `TypeError` on `null` and
`undefined`, yields `undefined` (`.undefined`) for a missing property or a
primitive base, and looks the field up on an object.  (Array index and
string method properties named `version`, `timestamp`, `data`, `id` or
`entities` do not exist, so arrays behave like field-less objects
here.) -/
def jPropE : JVal → String → Except JsErr JVal
  | .null, _ => .error .typeError
  | .undefined, _ => .error .typeError
  | .obj fields, k => .ok ((alistFind fields k).getD .undefined)
  | _, _ => .ok .undefined

/-- Total property access, used only where the base is known not to be
`null`/`undefined` (the throwing cases of `jPropE` are unreachable). -/
def jPropD : JVal → String → JVal
  | .obj fields, k => (alistFind fields k).getD .undefined
  | _, _ => .undefined

/-- The pairs enumerated by `for (k in o)` / `Object.keys(o)` together
with the corresponding values `o[k]`: the own fields of an object, the
index/element pairs of an array, nothing for primitives. -/
def entPairs : JVal → List (String × JVal)
  | .obj fields => fields
  | .arr elems => (elems.enum).map (fun p => (toString p.1, p.2))
  | _ => []

/-- The test `v.length === 0` as run by `importData`: throws on
`null`/`undefined`, measures arrays and strings, and is `false` for
other values (their `length` is `undefined` or a non-numeric field, and
`undefined === 0` is `false`). -/
def lenStrictEqZero : JVal → Except JsErr Bool
  | .arr elems => .ok (elems.length == 0)
  | .str s => .ok (s.data.length == 0)
  | .null => .error .typeError
  | .undefined => .error .typeError
  | .obj fields =>
      .ok (match alistFind fields "length" with
            | some (.num 0) => true
            | _ => false)
  | .num _ => .ok false
  | .bool _ => .ok false

/-- `s.startsWith(p)`, computed on the underlying character lists. -/
def strStartsWith (s p : String) : Bool := p.data.isPrefixOf s.data

/-- `s.substring(n)` (drop the first `n` UTF-16 units; all keys in
this development are ASCII, where UTF-16 units and characters agree). -/
def substringFrom (s : String) (n : Nat) : String := ⟨s.data.drop n⟩

/-- `s.length` for the ASCII keys manipulated here. -/
def strLen (s : String) : Nat := s.data.length

/-- Whether `sub` occurs as a contiguous run inside `l`. -/
def charsInclude (sub : List Char) : List Char → Bool
  | [] => sub.isEmpty
  | c :: rest => sub.isPrefixOf (c :: rest) || charsInclude sub rest

/-- `s.includes(sub)`. -/
def strIncludes (s sub : String) : Bool := charsInclude sub.data s.data

/-- Model of `new Date().toISOString()`: an injective rendering of the
millisecond clock that also drives `Date.now()`. -/
def isoOf (now : Nat) : String := toString now

/-- The underlying medium: `localStorage`, as an association list of
key/parsed-value pairs in enumeration order. -/
abbrev LS := List (String × JVal)

/-- `localStorage.getItem` (absent key reads as `null`, modelled as
`none`). -/
def lsGet (ls : LS) (k : String) : Option JVal := alistFind ls k

/-- `localStorage.setItem` (for a write the environment lets
succeed). -/
def lsSet (ls : LS) (k : String) (v : JVal) : LS := alistSet ls k v

/-- `localStorage.removeItem`. -/
def lsRemove (ls : LS) (k : String) : LS := alistRemove ls k

/-- The keys enumerated by `localStorage.key(0) .. key(length-1)`. -/
def lsKeys (ls : LS) : List String := ls.map (fun p => p.1)

/-- A cache entry: `{ data, timestamp: Date.now() }`. -/
structure CacheEntry where
  data : JVal
  timestamp : Nat

/-- The instance state of `EnhancedStorageManager`: the constructor
fields `storageKey`, `isAvailable`, `cache`, `cacheExpiry` and
`version`.  (`cache` is a `Map` keyed by entity type.) -/
structure Store where
  storageKey : String
  isAvailable : Bool
  cache : List (String × CacheEntry)
  cacheExpiry : Nat
  version : String

/-- Lookup in the instance cache (`this.cache.get`). -/
def cacheFind (c : List (String × CacheEntry)) (ety : String) : Option CacheEntry :=
  alistFind c ety

/-- The namespaced key `` `${this.storageKey}_${entityType}` ``. -/
def fullKeyOf (s : Store) (ety : String) : String := s.storageKey ++ "_" ++ ety

/-- The envelope `{ version, timestamp, data }` built by `save` (and
synthesized by `_migrateData`). -/
def mkEnvelope (ver ts : String) (d : JVal) : JVal :=
  .obj [("version", .str ver), ("timestamp", .str ts), ("data", d)]

/-- Constructor of `EnhancedStorageManager`.  `probeOk` is the outcome
of `_checkStorageAvailability` (whether the environment let the probe
write succeed); when the probe runs, it sets and then removes the key
`__storage_test__`.  `_initializeStorage` then writes the meta record
if the meta key is absent; `initErr` is the environment's behaviour for
that write (a thrown error is caught and only logged). -/
def mkStore (storageKey : String) (probeOk : Bool) (ls : LS) (now : Nat)
    (initErr : Option JsErr) : Store × LS :=
  let ls1 := if probeOk then lsRemove (lsSet ls "__storage_test__" (.str "test")) "__storage_test__" else ls
  let s : Store := ⟨storageKey, probeOk, [], 5 * 60 * 1000, "2.0"⟩
  if probeOk then
    let metaKey := storageKey ++ "_meta"
    match lsGet ls1 metaKey with
    | some _ => (s, ls1)
    | none =>
        match initErr with
        | some _ => (s, ls1)
        | none =>
            (s, lsSet ls1 metaKey
              (.obj [("version", .str "2.0"), ("initialized", .str (isoOf now)),
                     ("entityTypes", .arr [])]))
  else (s, ls1)

/-- `save(entityType, data)`.  `setErr` is the environment's behaviour
for the `localStorage.setItem` call: on `none` the write succeeds and
the cache entry is refreshed; a thrown error is caught, handed to
`_handleStorageError` (which runs the quota recovery —
`clearCache()` plus removal of every key whose name contains
`"backup"` — exactly for `QuotaExceededError`), and `save` reports
failure. -/
def save (s : Store) (ls : LS) (now : Nat) (ety : String) (data : JVal)
    (setErr : Option JsErr) : Bool × Store × LS :=
  if !s.isAvailable then (false, s, ls)
  else
    let fullKey := fullKeyOf s ety
    let dataToStore := mkEnvelope s.version (isoOf now) data
    match setErr with
    | none =>
        (true, { s with cache := alistSet s.cache ety ⟨data, now⟩ }, lsSet ls fullKey dataToStore)
    | some e =>
        if e = .quotaExceeded then
          (false, { s with cache := [] },
            ((lsKeys ls).filter (fun k => strIncludes k "backup")).foldl lsRemove ls)
        else (false, s, ls)

/-- `_getFromCache(entityType)`: `null` on a missing entry; an entry
older than `cacheExpiry` is deleted and reads as `null`; otherwise the
entry's data (which may itself be the value `null`). -/
def getFromCache (s : Store) (now : Nat) (ety : String) : JVal × Store :=
  match cacheFind s.cache ety with
  | none => (.null, s)
  | some c =>
      if now - c.timestamp > s.cacheExpiry then
        (.null, { s with cache := alistRemove s.cache ety })
      else (c.data, s)

/-- `_migrateData(storedData, entityType)`: a stored value without a
truthy `version` is wrapped in a freshly synthesized current-version
envelope (legacy v1 migration); reading `.version` of `null` throws. -/
def migrateData (ver nowIso : String) (storedData : JVal) : Except JsErr JVal :=
  match jPropE storedData "version" with
  | .error e => .error e
  | .ok v =>
      if jsFalsy v then .ok (mkEnvelope ver nowIso storedData)
      else .ok storedData

/-- `load(entityType, defaultValue)`.  Cache first (`!== null` check),
then the medium, with `_migrateData` and re-caching; any error thrown
inside is caught and the default is returned.  The medium is threaded
through unchanged: `load` performs no `setItem`/`removeItem`. -/
def load (s : Store) (ls : LS) (now : Nat) (ety : String) (dflt : JVal) :
    JVal × Store × LS :=
  if !s.isAvailable then (dflt, s, ls)
  else
    let r := getFromCache s now ety
    if !jvIsNull r.1 then (r.1, r.2, ls)
    else
      match lsGet ls (fullKeyOf s ety) with
      | none => (dflt, r.2, ls)
      | some storedData =>
          match migrateData r.2.version (isoOf now) storedData with
          | .error _ => (dflt, r.2, ls)
          | .ok migrated =>
              let d := jPropD migrated "data"
              (d, { r.2 with cache := alistSet r.2.cache ety ⟨d, now⟩ }, ls)

/-- `remove(entityType)`: delete the namespaced key and evict the
cache entry. -/
def remove (s : Store) (ls : LS) (ety : String) : Bool × Store × LS :=
  if !s.isAvailable then (false, s, ls)
  else (true, { s with cache := alistRemove s.cache ety }, lsRemove ls (fullKeyOf s ety))

/-- `clear()`: collect every key that starts with `storageKey` (the
raw key, with no underscore appended), remove them all, and clear the
cache. -/
def clear (s : Store) (ls : LS) : Bool × Store × LS :=
  if !s.isAvailable then (false, s, ls)
  else
    let keysToRemove := (lsKeys ls).filter (fun k => strStartsWith k s.storageKey)
    (true, { s with cache := [] }, keysToRemove.foldl lsRemove ls)

/-- `getEntityTypes()`: the suffixes of the enumerated keys that start
with `` `${storageKey}_` ``. -/
def getEntityTypes (s : Store) (ls : LS) : List String :=
  if !s.isAvailable then []
  else
    let pre := s.storageKey ++ "_"
    ((lsKeys ls).filter (fun k => strStartsWith k pre)).map
      (fun k => substringFrom k (strLen pre))

/-- `clearCache(entityType?)`: evict one entry or the whole cache. -/
def clearCache (s : Store) (ety : Option String) : Store :=
  match ety with
  | some e => { s with cache := alistRemove s.cache e }
  | none => { s with cache := [] }

/-- The `entityTypes.forEach` loop of `exportData`: assign
`entities[entityType] = load(entityType, [])` in order, threading the
store (whose cache the loads populate). -/
def exportFold (now : Nat) (ls : LS) :
    List String → Store → List (String × JVal) → List (String × JVal) × Store
  | [], s, acc => (acc, s)
  | ety :: rest, s, acc =>
      let r := load s ls now ety (.arr [])
      exportFold now ls rest r.2.1 (alistSet acc ety r.1)

/-- `exportData()`: `null` when the medium is unavailable, otherwise
the backup payload `{version, timestamp, entities}` with one entry per
discovered entity type.  (Nothing in the loop throws, so the
surrounding `try` never reaches its `catch`.) -/
def exportData (s : Store) (ls : LS) (now : Nat) : JVal × Store :=
  if !s.isAvailable then (.null, s)
  else
    let r := exportFold now ls (getEntityTypes s ls) s []
    (.obj [("version", .str s.version), ("timestamp", .str (isoOf now)),
           ("entities", .obj r.1)], r.2)

/-- `_validateImportData(importData)`: the payload must be a non-null
object, its `entities` property truthy and of object type, and every
enumerated value of `entities` an array (the source re-reads
`importData.entities` at each step rather than binding it locally). -/
def validateImportData (p : JVal) : Bool :=
  if jsFalsy p || !typeofObject p then false
  else if jsFalsy (jPropD p "entities") || !typeofObject (jPropD p "entities") then false
  else (entPairs (jPropD p "entities")).all (fun kv => jvIsArr kv.2)

/-- `_mergeEntityData(existingData, newData)`: keep every existing
record; append an incoming record when its `id` is falsy or absent
from the set of truthy existing ids.  Reading `.id` of a `null` or
`undefined` array element throws. -/
def mergeEntityData (existingData newData : JVal) : Except JsErr JVal :=
  match existingData, newData with
  | .arr ex, .arr nw => do
      let rawIds ← ex.mapM (fun item => jPropE item "id")
      let existingIds := rawIds.filter jsTruthy
      let merged ← nw.foldlM (fun acc item => do
          let iid ← jPropE item "id"
          if !jsTruthy iid || !(existingIds.any (fun x => jvEq x iid)) then
            pure (acc ++ [item])
          else pure acc) ex
      pure (.arr merged)
  | _, nw => .ok nw

/-- The `Object.keys(importData.entities).forEach` loop of
`importData`, with the saves' `setItem` calls succeeding (`none`).  A
`TypeError` thrown while inspecting `existingData` or merging stops
the loop; it is caught by `importData`'s `catch`, which reports
failure and keeps the state mutated so far.  `overwrite` short-circuits
`overwrite || existingData.length === 0`, so with `overwrite = true`
the length of `existingData` is never read. -/
def importLoop (now : Nat) (ow : Bool) :
    List (String × JVal) → Store → LS → Bool × Store × LS
  | [], s, ls => (true, s, ls)
  | (ety, v) :: rest, s, ls =>
      let r0 := load s ls now ety (.arr [])
      let s1 := r0.2.1
      if ow then
        let r1 := save s1 ls now ety v none
        importLoop now ow rest r1.2.1 r1.2.2
      else
        match lenStrictEqZero r0.1 with
        | .error _ => (false, s1, ls)
        | .ok true =>
            let r1 := save s1 ls now ety v none
            importLoop now ow rest r1.2.1 r1.2.2
        | .ok false =>
            match mergeEntityData r0.1 v with
            | .error _ => (false, s1, ls)
            | .ok merged =>
                let r1 := save s1 ls now ety merged none
                importLoop now ow rest r1.2.1 r1.2.2

/-- `importData(importData, overwrite)`: the guard
`!isAvailable || !importData || !importData.entities` fails fast;
`_validateImportData` failing raises an error that the `catch` turns
into `false` (before any mutation); then each entity type is imported
in turn. -/
def importData (s : Store) (ls : LS) (now : Nat) (p : JVal) (ow : Bool) :
    Bool × Store × LS :=
  if !s.isAvailable || jsFalsy p || jsFalsy (jPropD p "entities") then (false, s, ls)
  else if !validateImportData p then (false, s, ls)
  else importLoop now ow (entPairs (jPropD p "entities")) s ls

/-- The malformedness condition of claim C8, stated from the claim's
words: the payload's `entities` field is missing, is not a mapping
(an object/array that `for..in` enumerates), or maps some entity type
to a value that is not an ordered sequence. -/
def importPayloadMalformed (p : JVal) : Bool :=
  match p with
  | .obj fields =>
      match alistFind fields "entities" with
      | none => true
      | some ents =>
          match ents with
          | .obj efs => efs.any (fun kv => !jvIsArr kv.2)
          | .arr elems => elems.any (fun v => !jvIsArr v)
          | _ => true
  | _ => true

/-- Scenario state for claim C1: an available store in its constructed
configuration with an empty cache (the state of a fresh instance). -/
def baseStore (sk : String) : Store := ⟨sk, true, [], 5 * 60 * 1000, "2.0"⟩

/-- Scenario state for claim C1: a medium holding exactly one saved
envelope per entity collection of `pairs` — and no meta record (the
amended claim requires its absence; see `claim1_counterexample`). -/
def entLS (sk ts : String) (pairs : List (String × List JVal)) : LS :=
  pairs.map (fun q => ((sk ++ "_") ++ q.1, mkEnvelope "2.0" ts (.arr q.2)))

/-! ### Association-list lemmas -/

theorem alistFind_set_self {α : Type} (l : List (String × α)) (k : String) (v : α) :
    alistFind (alistSet l k v) k = some v := by
  induction l with
  | nil => simp [alistFind, alistSet]
  | cons p rest ih =>
      by_cases h : p.1 = k <;> simp [alistFind, alistSet, h, ih]

theorem alistFind_set_ne {α : Type} (l : List (String × α)) (k k' : String) (v : α)
    (h : k' ≠ k) : alistFind (alistSet l k v) k' = alistFind l k' := by
  induction l with
  | nil => simp [alistFind, alistSet, Ne.symm h]
  | cons p rest ih =>
      by_cases hp : p.1 = k
      · have hpk' : p.1 ≠ k' := by rw [hp]; exact Ne.symm h
        simp [alistFind, alistSet, hp, Ne.symm h, hpk']
      · simp [alistFind, alistSet, hp, ih]

theorem alistFind_remove_self {α : Type} (l : List (String × α)) (k : String) :
    alistFind (alistRemove l k) k = none := by
  induction l with
  | nil => simp [alistFind, alistRemove]
  | cons p rest ih =>
      by_cases h : p.1 = k <;> simp_all [alistFind, alistRemove, List.filter]

theorem alistFind_remove_ne {α : Type} (l : List (String × α)) (k k' : String)
    (h : k' ≠ k) : alistFind (alistRemove l k) k' = alistFind l k' := by
  induction l with
  | nil => simp [alistFind, alistRemove]
  | cons p rest ih =>
      by_cases hp : p.1 = k
      · subst hp
        simp_all [alistFind, alistRemove, List.filter, Ne.symm h]
      · by_cases hp' : p.1 = k' <;> simp_all [alistFind, alistRemove, List.filter]

theorem alistFind_some_mem {α : Type} (l : List (String × α)) (k : String) (v : α)
    (h : alistFind l k = some v) : k ∈ l.map Prod.fst := by
  induction l with
  | nil => simp [alistFind] at h
  | cons p rest ih =>
      by_cases hp : p.1 = k
      · simp [hp.symm]
      · simp [alistFind, hp] at h
        simp [ih h]

theorem alistSet_of_not_mem {α : Type} (l : List (String × α)) (k : String) (v : α)
    (h : k ∉ l.map Prod.fst) : alistSet l k v = l ++ [(k, v)] := by
  induction l with
  | nil => simp [alistSet]
  | cons p rest ih =>
      simp only [List.map_cons, List.mem_cons, not_or] at h
      have hp : p.1 ≠ k := fun hh => h.1 hh.symm
      simp [alistSet, hp, ih h.2]

theorem foldl_lsRemove_eq_filter (ks : List String) (ls : LS) :
    ks.foldl lsRemove ls = ls.filter (fun p => !ks.contains p.1) := by
  induction ks generalizing ls with
  | nil => simp
  | cons k ks ih =>
      rw [List.foldl_cons, ih]
      show (lsRemove ls k).filter _ = _
      rw [lsRemove, alistRemove, List.filter_filter]
      refine List.filter_congr (fun p _ => ?_)
      by_cases h : p.1 = k <;> simp [h]

/-! ### String-key lemmas -/

theorem strData_append (a b : String) : (a ++ b).data = a.data ++ b.data := rfl

theorem isPrefixOf_self_append (l m : List Char) : l.isPrefixOf (l ++ m) = true := by
  induction l with
  | nil => simp [List.isPrefixOf]
  | cons c cs ih => simp [List.isPrefixOf, ih]

theorem strStartsWith_self_append (a b : String) : strStartsWith (a ++ b) a = true := by
  rw [strStartsWith, strData_append]
  exact isPrefixOf_self_append a.data b.data

theorem substringFrom_append (a b : String) : substringFrom (a ++ b) (strLen a) = b := by
  rw [substringFrom, strData_append, strLen, List.drop_left]

theorem str_append_right_cancel (a b c : String) (h : a ++ b = a ++ c) : b = c := by
  have hd : a.data ++ b.data = a.data ++ c.data := by
    rw [← strData_append, ← strData_append, h]
  exact congrArg String.mk (List.append_cancel_left hd)

/-! ### Frame and configuration lemmas for the store operations -/

/-- The constructor-fixed fields (`storageKey`, `isAvailable`,
`cacheExpiry`, `version`) of `t` agree with those of `s`; every store
operation only ever rebuilds the `cache` field. -/
def sameConfig (s t : Store) : Prop :=
  t.storageKey = s.storageKey ∧ t.isAvailable = s.isAvailable ∧
  t.cacheExpiry = s.cacheExpiry ∧ t.version = s.version

theorem sameConfig_refl (s : Store) : sameConfig s s := ⟨rfl, rfl, rfl, rfl⟩

theorem sameConfig_trans {s t u : Store} (h1 : sameConfig s t) (h2 : sameConfig t u) :
    sameConfig s u := by
  obtain ⟨a1, b1, c1, d1⟩ := h1
  obtain ⟨a2, b2, c2, d2⟩ := h2
  exact ⟨a2.trans a1, b2.trans b1, c2.trans c1, d2.trans d1⟩

theorem sameConfig_cache (s : Store) (c : List (String × CacheEntry)) :
    sameConfig s { s with cache := c } := ⟨rfl, rfl, rfl, rfl⟩

theorem getFromCache_config (s : Store) (now : Nat) (ety : String) :
    sameConfig s (getFromCache s now ety).2 := by
  rw [getFromCache]
  rcases cacheFind s.cache ety with _ | c
  · exact sameConfig_refl s
  · dsimp only
    split
    · exact sameConfig_cache s _
    · exact sameConfig_refl s

theorem save_config (s : Store) (ls : LS) (now : Nat) (ety : String) (data : JVal)
    (setErr : Option JsErr) : sameConfig s (save s ls now ety data setErr).2.1 := by
  rw [save]
  split
  · exact sameConfig_refl s
  · rcases setErr with _ | e
    · exact sameConfig_cache s _
    · dsimp only
      split
      · exact sameConfig_cache s _
      · exact sameConfig_refl s

theorem load_config (s : Store) (ls : LS) (now : Nat) (ety : String) (dflt : JVal) :
    sameConfig s (load s ls now ety dflt).2.1 := by
  simp only [load]
  split
  · exact sameConfig_refl s
  · split
    · exact getFromCache_config s now ety
    · split
      · exact getFromCache_config s now ety
      · split
        · exact getFromCache_config s now ety
        · exact sameConfig_trans (getFromCache_config s now ety) (sameConfig_cache _ _)

theorem load_medium (s : Store) (ls : LS) (now : Nat) (ety : String) (dflt : JVal) :
    (load s ls now ety dflt).2.2 = ls := by
  simp only [load]
  split
  · rfl
  · split
    · rfl
    · split
      · rfl
      · split <;> rfl

theorem getFromCache_cache_frame (s : Store) (now : Nat) (ety k : String) (h : k ≠ ety) :
    cacheFind ((getFromCache s now ety).2).cache k = cacheFind s.cache k := by
  rw [getFromCache]
  rcases cacheFind s.cache ety with _ | c
  · rfl
  · dsimp only
    split
    · exact alistFind_remove_ne s.cache ety k h
    · rfl

theorem load_cache_frame (s : Store) (ls : LS) (now : Nat) (ety : String) (dflt : JVal)
    (k : String) (h : k ≠ ety) :
    cacheFind ((load s ls now ety dflt).2.1).cache k = cacheFind s.cache k := by
  simp only [load]
  split
  · rfl
  · split
    · exact getFromCache_cache_frame s now ety k h
    · split
      · exact getFromCache_cache_frame s now ety k h
      · split
        · exact getFromCache_cache_frame s now ety k h
        · show cacheFind (alistSet (getFromCache s now ety).2.cache ety _) k = _
          rw [cacheFind, alistFind_set_ne _ _ _ _ h]
          exact getFromCache_cache_frame s now ety k h

theorem load_cache_hit (s : Store) (ls : LS) (now : Nat) (ety : String) (dflt d : JVal)
    (t0 : Nat) (hav : s.isAvailable = true)
    (hc : cacheFind s.cache ety = some ⟨d, t0⟩)
    (hexp : now - t0 ≤ s.cacheExpiry)
    (hd : jvIsNull d = false) :
    load s ls now ety dflt = (d, s, ls) := by
  have hgc : getFromCache s now ety = (d, s) := by
    rw [getFromCache, hc]
    dsimp only
    rw [if_neg (by omega)]
  simp [load, hav, hgc, hd]

theorem jPropD_envelope_data (ver ts : String) (d : JVal) :
    jPropD (mkEnvelope ver ts d) "data" = d := by
  simp [jPropD, mkEnvelope, alistFind]

theorem migrateData_envelope (curVer nowIso ver ts : String) (d : JVal)
    (hver : (ver == "") = false) :
    migrateData curVer nowIso (mkEnvelope ver ts d) = .ok (mkEnvelope ver ts d) := by
  simp [migrateData, mkEnvelope, jPropE, alistFind, jsFalsy, jsTruthy, hver]

theorem load_miss_envelope (s : Store) (ls : LS) (now : Nat) (ety : String)
    (dflt d : JVal) (ver ts : String) (hav : s.isAvailable = true)
    (hc : cacheFind s.cache ety = none)
    (hls : lsGet ls (fullKeyOf s ety) = some (mkEnvelope ver ts d))
    (hver : (ver == "") = false) :
    load s ls now ety dflt = (d, { s with cache := alistSet s.cache ety ⟨d, now⟩ }, ls) := by
  have hgc : getFromCache s now ety = (.null, s) := by rw [getFromCache, hc]
  simp [load, hav, hgc, jvIsNull, hls, migrateData_envelope s.version (isoOf now) ver ts d hver,
    jPropD_envelope_data]

theorem remove_config (s : Store) (ls : LS) (ety : String) :
    sameConfig s (remove s ls ety).2.1 := by
  rw [remove]
  split
  · exact sameConfig_refl s
  · exact sameConfig_cache s _

theorem clear_config (s : Store) (ls : LS) : sameConfig s (clear s ls).2.1 := by
  rw [clear]
  split
  · exact sameConfig_refl s
  · exact sameConfig_cache s _

theorem clearCache_config (s : Store) (e : Option String) :
    sameConfig s (clearCache s e) := by
  rcases e with _ | e
  · exact sameConfig_cache s _
  · exact sameConfig_cache s _

theorem importLoop_config (now : Nat) (ow : Bool) (L : List (String × JVal)) :
    ∀ s ls, sameConfig s (importLoop now ow L s ls).2.1 := by
  induction L with
  | nil => intro s ls; exact sameConfig_refl s
  | cons q rest ih =>
      intro s ls
      obtain ⟨ety, v⟩ := q
      simp only [importLoop]
      split
      · exact sameConfig_trans (load_config s ls now ety (.arr []))
          (sameConfig_trans (save_config _ ls now ety v none) (ih _ _))
      · split
        · exact load_config s ls now ety (.arr [])
        · exact sameConfig_trans (load_config s ls now ety (.arr []))
            (sameConfig_trans (save_config _ ls now ety v none) (ih _ _))
        · split
          · exact load_config s ls now ety (.arr [])
          · exact sameConfig_trans (load_config s ls now ety (.arr []))
              (sameConfig_trans (save_config _ ls now ety _ none) (ih _ _))

theorem importData_config (s : Store) (ls : LS) (now : Nat) (p : JVal) (ow : Bool) :
    sameConfig s (importData s ls now p ow).2.1 := by
  rw [importData]
  split
  · exact sameConfig_refl s
  · split
    · exact sameConfig_refl s
    · exact importLoop_config now ow _ s ls

theorem exportFold_config (now : Nat) (ls : LS) (types : List String) :
    ∀ s acc, sameConfig s (exportFold now ls types s acc).2 := by
  induction types with
  | nil => intro s acc; exact sameConfig_refl s
  | cons ety rest ih =>
      intro s acc
      simp only [exportFold]
      exact sameConfig_trans (load_config s ls now ety (.arr [])) (ih _ _)

theorem exportData_config (s : Store) (ls : LS) (now : Nat) :
    sameConfig s (exportData s ls now).2 := by
  rw [exportData]
  split
  · exact sameConfig_refl s
  · exact exportFold_config now ls _ s []

/-! ### Claim C10 -/

/-- Claim C10: on an available store, if the underlying write inside
`save` throws an error other than the quota-exceeded one, `save`
returns `false` and both the cache (indeed the whole store state) and
the medium are exactly what they were before the call — the cache is
only updated after a successful write. -/
theorem claim10_save_error_no_mutation (s : Store) (ls : LS) (now : Nat)
    (ety : String) (data : JVal) (hav : s.isAvailable = true) :
    save s ls now ety data (some .other) = (false, s, ls) := by
  simp [save, hav]

/-- Witness for C10 at a concrete available store. -/
theorem claim10_witness :
    save ⟨"app", true, [], 300000, "2.0"⟩ [("app_t", .num 1)] 7 "t" (.num 2) (some .other)
      = (false, ⟨"app", true, [], 300000, "2.0"⟩, [("app_t", .num 1)]) :=
  claim10_save_error_no_mutation ⟨"app", true, [], 300000, "2.0"⟩ [("app_t", .num 1)] 7 "t"
    (.num 2) rfl

/-! ### Claim C7 -/

/-- Claim C7: on a store whose construction-time probe failed
(`isAvailable = false`), `save` returns `false` and `load` returns the
caller's default, both without touching any state (the functions are
total, so no exception escapes); and no operation ever brings the
store back to the available state: after any operation on the
unavailable store, `isAvailable` is still `false`. -/
theorem claim7_unavailable_terminal (s : Store) (ls : LS) (now : Nat) (ety : String)
    (data dflt p : JVal) (setErr : Option JsErr) (ow : Bool) (e : Option String)
    (h : s.isAvailable = false) :
    save s ls now ety data setErr = (false, s, ls) ∧
    load s ls now ety dflt = (dflt, s, ls) ∧
    ((save s ls now ety data setErr).2.1).isAvailable = false ∧
    ((load s ls now ety dflt).2.1).isAvailable = false ∧
    ((remove s ls ety).2.1).isAvailable = false ∧
    ((clear s ls).2.1).isAvailable = false ∧
    ((importData s ls now p ow).2.1).isAvailable = false ∧
    ((exportData s ls now).2).isAvailable = false ∧
    (clearCache s e).isAvailable = false := by
  refine ⟨by simp [save, h], by simp [load, h], ?_, ?_, ?_, ?_, ?_, ?_, ?_⟩
  · exact (save_config s ls now ety data setErr).2.1.trans h
  · exact (load_config s ls now ety dflt).2.1.trans h
  · exact (remove_config s ls ety).2.1.trans h
  · exact (clear_config s ls).2.1.trans h
  · exact (importData_config s ls now p ow).2.1.trans h
  · exact (exportData_config s ls now).2.1.trans h
  · exact (clearCache_config s e).2.1.trans h

/-- Witness for C7 at a concrete unavailable store. -/
theorem claim7_witness :
    save ⟨"app", false, [], 300000, "2.0"⟩ [] 0 "t" (.num 1) none
      = (false, ⟨"app", false, [], 300000, "2.0"⟩, []) ∧
    load ⟨"app", false, [], 300000, "2.0"⟩ [] 0 "t" (.num 9)
      = (.num 9, ⟨"app", false, [], 300000, "2.0"⟩, []) ∧
    ((save ⟨"app", false, [], 300000, "2.0"⟩ [] 0 "t" (.num 1) none).2.1).isAvailable = false ∧
    ((load ⟨"app", false, [], 300000, "2.0"⟩ [] 0 "t" (.num 9)).2.1).isAvailable = false ∧
    ((remove ⟨"app", false, [], 300000, "2.0"⟩ [] "t").2.1).isAvailable = false ∧
    ((clear ⟨"app", false, [], 300000, "2.0"⟩ []).2.1).isAvailable = false ∧
    ((importData ⟨"app", false, [], 300000, "2.0"⟩ [] 0 (.obj []) true).2.1).isAvailable = false ∧
    ((exportData ⟨"app", false, [], 300000, "2.0"⟩ [] 0).2).isAvailable = false ∧
    (clearCache ⟨"app", false, [], 300000, "2.0"⟩ none).isAvailable = false :=
  claim7_unavailable_terminal ⟨"app", false, [], 300000, "2.0"⟩ [] 0 "t"
    (.num 1) (.num 9) (.obj []) none true none rfl

/-! ### Claim C9 -/

theorem str_append_assoc (a b c : String) : a ++ b ++ c = a ++ (b ++ c) :=
  congrArg String.mk (List.append_assoc a.data b.data c.data)

theorem mem_getEntityTypes_of_key (s : Store) (ls : LS) (e : String)
    (hav : s.isAvailable = true) (hk : (s.storageKey ++ "_") ++ e ∈ lsKeys ls) :
    e ∈ getEntityTypes s ls := by
  rw [getEntityTypes]
  rw [if_neg (by rw [hav]; simp)]
  refine List.mem_map.mpr ⟨(s.storageKey ++ "_") ++ e,
    List.mem_filter.mpr ⟨hk, strStartsWith_self_append _ _⟩, substringFrom_append _ _⟩

/-- Claim C9: a freshly constructed available store (meta record
initialized, i.e. the init-time `setItem` was allowed to succeed)
reports `"meta"` among `getEntityTypes()`: the meta key shares the
namespace prefix and entity discovery does not exclude it. -/
theorem claim9_meta_in_entity_types (sk : String) (ls : LS) (now : Nat) :
    "meta" ∈ getEntityTypes (mkStore sk true ls now none).1 (mkStore sk true ls now none).2 := by
  have hassoc : sk ++ "_meta" = (sk ++ "_") ++ "meta" := (str_append_assoc sk "_" "meta").symm
  rw [mkStore]
  simp only [if_true]
  rcases hm : lsGet (lsRemove (lsSet ls "__storage_test__" (.str "test")) "__storage_test__")
      (sk ++ "_meta") with _ | v
  · simp only [hm]
    apply mem_getEntityTypes_of_key _ _ _ rfl
    show (sk ++ "_") ++ "meta" ∈ _
    rw [← hassoc]
    exact alistFind_some_mem _ _ _
      (alistFind_set_self (lsRemove (lsSet ls "__storage_test__" (.str "test")) "__storage_test__")
        (sk ++ "_meta") _)
  · simp only [hm]
    apply mem_getEntityTypes_of_key _ _ _ rfl
    show (sk ++ "_") ++ "meta" ∈ _
    rw [← hassoc]
    exact alistFind_some_mem _ _ _ hm

theorem mem_enumFrom_of_mem {α : Type} (v : α) :
    ∀ (l : List α) (k : Nat), v ∈ l → ∃ n, (n, v) ∈ l.enumFrom k := by
  intro l
  induction l with
  | nil => intro k h; cases h
  | cons x xs ih =>
      intro k h
      rcases List.mem_cons.mp h with h | h
      · exact ⟨k, by simp [List.enumFrom, h]⟩
      · obtain ⟨n, hn⟩ := ih (k + 1) h
        exact ⟨n, by simp [List.enumFrom, hn]⟩

/-! ### Claim C8 -/

/-- Claim C8: on an available store, `importData` of a malformed
payload returns `false` and leaves both the store (cache included) and
the underlying medium completely untouched. -/
theorem claim8_import_validation_no_mutation (s : Store) (ls : LS) (now : Nat)
    (p : JVal) (ow : Bool) (hav : s.isAvailable = true)
    (hbad : importPayloadMalformed p = true) :
    importData s ls now p ow = (false, s, ls) := by
  rcases p with _ | _ | b | n | st | elems | fields
  · simp [importData, hav, jsFalsy, jsTruthy]
  · simp [importData, hav, jsFalsy, jsTruthy]
  · rcases b with _ | _
    · simp [importData, hav, jsFalsy, jsTruthy]
    · simp [importData, hav, jsFalsy, jsTruthy, jPropD]
  · simp [importData, hav, jsFalsy, jsTruthy, jPropD]
  · simp [importData, hav, jsFalsy, jsTruthy, jPropD]
  · simp [importData, hav, jsFalsy, jsTruthy, jPropD]
  · rcases hf : alistFind fields "entities" with _ | ents
    · simp [importData, hav, jsFalsy, jsTruthy, jPropD, hf]
    · rcases ents with _ | _ | b | n | st | es | efs
      · simp [importData, hav, jsFalsy, jsTruthy, jPropD, hf]
      · simp [importData, hav, jsFalsy, jsTruthy, jPropD, hf]
      · rcases b with _ | _
        · simp [importData, hav, jsFalsy, jsTruthy, jPropD, hf]
        · simp [importData, hav, jsFalsy, jsTruthy, jPropD, hf, validateImportData,
            typeofObject]
      · by_cases hn : n = 0
        · simp [importData, hav, jsFalsy, jsTruthy, jPropD, hf, hn]
        · simp [importData, hav, jsFalsy, jsTruthy, jPropD, hf, hn, validateImportData,
            typeofObject]
      · by_cases hs0 : st = ""
        · simp [importData, hav, jsFalsy, jsTruthy, jPropD, hf, hs0]
        · simp [importData, hav, jsFalsy, jsTruthy, jPropD, hf, hs0, validateImportData,
            typeofObject]
      · rw [importPayloadMalformed] at hbad
        simp only [hf] at hbad
        rcases List.any_eq_true.mp hbad with ⟨v, hv, hnv⟩
        obtain ⟨n, hn⟩ := mem_enumFrom_of_mem v es 0 hv
        have hval : validateImportData (.obj fields) = false := by
          rw [validateImportData]
          simp only [jPropD, hf, Option.getD_some]
          rw [if_neg (by simp [jsFalsy, jsTruthy, typeofObject])]
          rw [if_neg (by simp [jsFalsy, jsTruthy, typeofObject])]
          exact List.all_eq_false.mpr
            ⟨(toString n, v), List.mem_map.mpr ⟨(n, v), hn, rfl⟩, by simpa using hnv⟩
        simp [importData, hav, jsFalsy, jsTruthy, jPropD, hf, hval]
      · rw [importPayloadMalformed] at hbad
        simp only [hf] at hbad
        rcases List.any_eq_true.mp hbad with ⟨kv, hkv, hnv⟩
        have hval : validateImportData (.obj fields) = false := by
          rw [validateImportData]
          simp only [jPropD, hf, Option.getD_some]
          rw [if_neg (by simp [jsFalsy, jsTruthy, typeofObject])]
          rw [if_neg (by simp [jsFalsy, jsTruthy, typeofObject])]
          exact List.all_eq_false.mpr ⟨kv, hkv, by simpa using hnv⟩
        simp [importData, hav, jsFalsy, jsTruthy, jPropD, hf, hval]

/-- Witness for C8: a payload whose `entities` maps an entity type to
a non-sequence is rejected without mutation. -/
theorem claim8_witness :
    importPayloadMalformed (.obj [("entities", .obj [("t", .num 5)])]) = true ∧
    importData ⟨"app", true, [], 300000, "2.0"⟩ [("app_t", .num 9)] 3
        (.obj [("entities", .obj [("t", .num 5)])]) true
      = (false, ⟨"app", true, [], 300000, "2.0"⟩, [("app_t", .num 9)]) :=
  ⟨rfl, claim8_import_validation_no_mutation ⟨"app", true, [], 300000, "2.0"⟩
    [("app_t", .num 9)] 3 (.obj [("entities", .obj [("t", .num 5)])]) true rfl rfl⟩

/-! ### Claim C2 -/

/-- Claim C2: on an available store whose stored collection for `E` is
`[{id:1,..},{id:2,..}]` (no cache entry for `E`), importing
`{E: [{id:2,..},{id:3,..}]}` with `overwrite = false` succeeds and
stores exactly the records with ids 1, 2 and 3, where the record with
id 2 is the pre-existing one verbatim (`f2`), not the incoming one
(`f2'`). -/
theorem claim2_merge_on_import (s : Store) (ls : LS) (now : Nat) (E ts : String)
    (f1 f2 f2' f3 : List (String × JVal)) (hav : s.isAvailable = true)
    (hcache : cacheFind s.cache E = none)
    (hls : lsGet ls (fullKeyOf s E) = some (mkEnvelope "2.0" ts (.arr [.obj f1, .obj f2])))
    (h1 : alistFind f1 "id" = some (.num 1)) (h2 : alistFind f2 "id" = some (.num 2))
    (h2' : alistFind f2' "id" = some (.num 2)) (h3 : alistFind f3 "id" = some (.num 3)) :
    (importData s ls now (.obj [("entities", .obj [(E, .arr [.obj f2', .obj f3])])]) false).1 = true ∧
    lsGet (importData s ls now (.obj [("entities", .obj [(E, .arr [.obj f2', .obj f3])])]) false).2.2
        (fullKeyOf s E)
      = some (mkEnvelope s.version (isoOf now) (.arr [.obj f1, .obj f2, .obj f3])) := by
  have hload := load_miss_envelope s ls now E (.arr []) (.arr [.obj f1, .obj f2]) "2.0" ts hav
    hcache hls rfl
  have hmerge : mergeEntityData (.arr [.obj f1, .obj f2]) (.arr [.obj f2', .obj f3])
      = .ok (.arr [.obj f1, .obj f2, .obj f3]) := by
    simp [mergeEntityData, jPropE, h1, h2, h2', h3, jsTruthy, jvEq, List.mapM, List.mapM.loop,
      List.foldlM, List.filter, List.any, Except.bind, Except.pure, bind, pure]
  have himp : importData s ls now (.obj [("entities", .obj [(E, .arr [.obj f2', .obj f3])])]) false
      = (true,
         Store.mk s.storageKey s.isAvailable
           (alistSet (alistSet s.cache E (CacheEntry.mk (.arr [.obj f1, .obj f2]) now)) E
             (CacheEntry.mk (.arr [.obj f1, .obj f2, .obj f3]) now))
           s.cacheExpiry s.version,
         lsSet ls (fullKeyOf s E) (mkEnvelope s.version (isoOf now) (.arr [.obj f1, .obj f2, .obj f3]))) := by
    rw [importData,
      if_neg (by simp [hav, jsFalsy, jsTruthy, jPropD, alistFind]),
      if_neg (by simp [validateImportData, jsFalsy, jsTruthy, typeofObject, jPropD, alistFind,
        entPairs, jvIsArr])]
    rw [show jPropD (JVal.obj [("entities", JVal.obj [(E, JVal.arr [JVal.obj f2', JVal.obj f3])])]) "entities"
        = JVal.obj [(E, JVal.arr [JVal.obj f2', JVal.obj f3])] from by simp [jPropD, alistFind]]
    rw [show entPairs (JVal.obj [(E, JVal.arr [JVal.obj f2', JVal.obj f3])])
        = [(E, JVal.arr [JVal.obj f2', JVal.obj f3])] from rfl]
    simp only [importLoop, hload]
    rw [show lenStrictEqZero (JVal.arr [JVal.obj f1, JVal.obj f2]) = Except.ok false from rfl]
    simp only [hmerge]
    simp [save, hav]
    rfl
  rw [himp]
  exact ⟨rfl, alistFind_set_self ls (fullKeyOf s E) _⟩

/-- Witness for C2 at concrete records. -/
theorem claim2_witness :
    (importData ⟨"app", true, [], 300000, "2.0"⟩
        [("app_t", mkEnvelope "2.0" "ts" (.arr [.obj [("id", .num 1)], .obj [("id", .num 2), ("a", .num 5)]]))]
        9 (.obj [("entities", .obj [("t", .arr [.obj [("id", .num 2), ("b", .num 6)], .obj [("id", .num 3)]])])])
        false).1 = true ∧
    lsGet (importData ⟨"app", true, [], 300000, "2.0"⟩
        [("app_t", mkEnvelope "2.0" "ts" (.arr [.obj [("id", .num 1)], .obj [("id", .num 2), ("a", .num 5)]]))]
        9 (.obj [("entities", .obj [("t", .arr [.obj [("id", .num 2), ("b", .num 6)], .obj [("id", .num 3)]])])])
        false).2.2 (fullKeyOf ⟨"app", true, [], 300000, "2.0"⟩ "t")
      = some (mkEnvelope "2.0" (isoOf 9)
          (.arr [.obj [("id", .num 1)], .obj [("id", .num 2), ("a", .num 5)], .obj [("id", .num 3)]])) :=
  claim2_merge_on_import ⟨"app", true, [], 300000, "2.0"⟩
    [("app_t", mkEnvelope "2.0" "ts" (.arr [.obj [("id", .num 1)], .obj [("id", .num 2), ("a", .num 5)]]))]
    9 "t" "ts" [("id", .num 1)] [("id", .num 2), ("a", .num 5)] [("id", .num 2), ("b", .num 6)]
    [("id", .num 3)] rfl rfl rfl rfl rfl rfl rfl

/-! ### Claim C4 -/

/-- Claim C4 fails as stated: `clear` matches keys against the raw
`storageKey` (no underscore), so the key `"apple"`, which is outside
the namespace `"app_"` of a store keyed `"app"` (it does not start
with the namespace prefix), is nevertheless deleted by `clear`. -/
theorem claim4_counterexample :
    strStartsWith "apple" ("app" ++ "_") = false ∧
    (clear ⟨"app", true, [], 300000, "2.0"⟩ [("apple", .num 1)]).2.2 = [] := ⟨rfl, rfl⟩

/-- Claim C4, amended: on an available store, `clear()` returns `true`,
empties the cache, and deletes exactly the keys that start with the raw
`storageKey` — this covers every key under the namespace prefix
`` `${storageKey}_` `` including the meta key, but also any key merely
sharing `storageKey` as a string prefix (such as `"apple"` for
storage key `"app"`); keys that do not start with `storageKey` are left
unchanged. -/
theorem claim4_amended_clear_exact (s : Store) (ls : LS) (hav : s.isAvailable = true) :
    clear s ls = (true, { s with cache := [] },
      ls.filter (fun p => !strStartsWith p.1 s.storageKey)) := by
  rw [clear, if_neg (by rw [hav]; simp)]
  show (true, { s with cache := [] },
    ((lsKeys ls).filter (fun k => strStartsWith k s.storageKey)).foldl lsRemove ls) = _
  rw [foldl_lsRemove_eq_filter]
  refine congrArg (fun x => (true, { s with cache := [] }, x)) ?_
  refine List.filter_congr (fun p hp => ?_)
  have hmem : p.1 ∈ lsKeys ls := List.mem_map.mpr ⟨p, hp, rfl⟩
  by_cases hst : strStartsWith p.1 s.storageKey = true
  · simp [hst, List.mem_filter, hmem]
  · simp only [Bool.not_eq_true] at hst
    simp [hst, List.mem_filter]

/-- Witness for the amended C4 at a concrete store and medium. -/
theorem claim4_witness :
    clear ⟨"app", true, [("t", ⟨.num 1, 0⟩)], 300000, "2.0"⟩
        [("apple", .num 1), ("app_t", .num 2), ("zz", .num 3)]
      = (true, ⟨"app", true, [], 300000, "2.0"⟩, [("zz", .num 3)]) :=
  claim4_amended_clear_exact ⟨"app", true, [("t", ⟨.num 1, 0⟩)], 300000, "2.0"⟩
    [("apple", .num 1), ("app_t", .num 2), ("zz", .num 3)] rfl

/-! ### Claim C5 -/

/-- Claim C5 fails as stated: a valid (age `0 ≤ TTL`) cache entry
whose data is the value `null` does not short-circuit the medium —
`load` falls through the `cached !== null` check, reads the medium and
returns what is stored there (`7`), not the cached data (`null`). -/
theorem claim5_counterexample :
    cacheFind (Store.mk "app" true [("tasks", ⟨.null, 0⟩)] 300000 "2.0").cache "tasks"
      = some ⟨.null, 0⟩ ∧
    (load (Store.mk "app" true [("tasks", ⟨.null, 0⟩)] 300000 "2.0")
        [("app_tasks", mkEnvelope "2.0" "t" (.num 7))] 0 "tasks" (.num 0)).1 = .num 7 :=
  ⟨rfl, rfl⟩

/-- Claim C5, amended: for a cache entry `⟨d, t0⟩` for `E` on an
available store, a `load` at time `t` with `t - t0 ≤ TTL` whose cached
data is not the value `null` returns the cached data without touching
the store or the medium; and a `load` at `t` with `t - t0 > TTL`
behaves exactly as a load with the entry evicted (lazy eviction, then
the medium is consulted). -/
theorem claim5_amended_cache_ttl (s : Store) (ls : LS) (t t0 : Nat) (E : String)
    (d dflt : JVal) (hav : s.isAvailable = true)
    (hc : cacheFind s.cache E = some ⟨d, t0⟩) :
    (t - t0 ≤ s.cacheExpiry → jvIsNull d = false → load s ls t E dflt = (d, s, ls)) ∧
    (t - t0 > s.cacheExpiry →
      load s ls t E dflt = load { s with cache := alistRemove s.cache E } ls t E dflt) := by
  constructor
  · intro hexp hd
    exact load_cache_hit s ls t E dflt d t0 hav hc hexp hd
  · intro hexp
    have hgcL : getFromCache s t E
        = (.null, ⟨s.storageKey, true, alistRemove s.cache E, s.cacheExpiry, s.version⟩) := by
      rw [getFromCache, hc]
      dsimp only
      rw [if_pos hexp, hav]
    have hgcR : getFromCache ⟨s.storageKey, true, alistRemove s.cache E, s.cacheExpiry, s.version⟩ t E
        = (.null, ⟨s.storageKey, true, alistRemove s.cache E, s.cacheExpiry, s.version⟩) := by
      rw [getFromCache]
      show (match alistFind (alistRemove s.cache E) E with
            | none => _ | some c => _) = _
      rw [alistFind_remove_self]
    simp [load, hgcL, hgcR, fullKeyOf, hav, jvIsNull]

/-- Witness for the amended C5: both TTL regimes at a concrete store. -/
theorem claim5_witness :
    load ⟨"app", true, [("t", ⟨.num 5, 100⟩)], 300000, "2.0"⟩ [] 150 "t" (.num 9)
      = (.num 5, ⟨"app", true, [("t", ⟨.num 5, 100⟩)], 300000, "2.0"⟩, []) ∧
    load ⟨"app", true, [("t", ⟨.num 5, 100⟩)], 300000, "2.0"⟩ [] 999999 "t" (.num 9)
      = load ⟨"app", true, [], 300000, "2.0"⟩ [] 999999 "t" (.num 9) :=
  ⟨(claim5_amended_cache_ttl ⟨"app", true, [("t", ⟨.num 5, 100⟩)], 300000, "2.0"⟩ [] 150 100
      "t" (.num 5) (.num 9) rfl rfl).1 (by decide) rfl,
   (claim5_amended_cache_ttl ⟨"app", true, [("t", ⟨.num 5, 100⟩)], 300000, "2.0"⟩ [] 999999 100
      "t" (.num 5) (.num 9) rfl rfl).2 (by decide)⟩

/-! ### Claim C6 -/

theorem jPropE_eq_jPropD (raw : JVal) (k : String) (h1 : raw ≠ .null)
    (h2 : raw ≠ .undefined) : jPropE raw k = .ok (jPropD raw k) := by
  cases raw <;> simp_all [jPropE, jPropD]

/-- Claim C6 fails as stated: the value `null` is parseable JSON with
no `version` field, but loading it does not return it unchanged —
reading `.version` of `null` throws a `TypeError`, which the `catch`
turns into the caller's default (`42` here), not the raw value. -/
theorem claim6_counterexample :
    lsGet [("app_tasks", JVal.null)] (fullKeyOf ⟨"app", true, [], 300000, "2.0"⟩ "tasks")
      = some .null ∧
    (load ⟨"app", true, [], 300000, "2.0"⟩ [("app_tasks", JVal.null)] 0 "tasks" (.num 42)).1
      = .num 42 ∧
    JVal.num 42 ≠ JVal.null :=
  ⟨rfl, rfl, fun h => JVal.noConfusion h⟩

/-- Claim C6, amended: on an available store with no cache entry for
`E`, if the underlying key holds a non-`null` raw legacy value (no
`version` field), `load(E, _)` returns that raw value unchanged as the
data, only populates the cache, and does not mutate the underlying
medium (the synthesized current-version envelope is never written
back).  For the raw value `null` the internal property access throws
and the default is returned instead (see the counterexample). -/
theorem claim6_amended_legacy_migration (s : Store) (ls : LS) (now : Nat) (E : String)
    (dflt raw : JVal) (hav : s.isAvailable = true)
    (hcache : cacheFind s.cache E = none)
    (hn : raw ≠ .null) (hu : raw ≠ .undefined)
    (hnover : jPropD raw "version" = .undefined)
    (hls : lsGet ls (fullKeyOf s E) = some raw) :
    load s ls now E dflt = (raw, { s with cache := alistSet s.cache E ⟨raw, now⟩ }, ls) := by
  have hgc : getFromCache s now E = (.null, s) := by rw [getFromCache, hcache]
  have hm : migrateData s.version (isoOf now) raw =
      .ok (mkEnvelope s.version (isoOf now) raw) := by
    rw [migrateData, jPropE_eq_jPropD raw "version" hn hu, hnover]
    simp [jsFalsy, jsTruthy]
  simp [load, hav, hgc, jvIsNull, hls, hm, jPropD_envelope_data]

/-- Witness for the amended C6: a raw legacy array is returned
unchanged. -/
theorem claim6_witness :
    load ⟨"app", true, [], 300000, "2.0"⟩ [("app_tasks", .arr [.num 7])] 3 "tasks" (.num 0)
      = (.arr [.num 7],
         ⟨"app", true, [("tasks", ⟨.arr [.num 7], 3⟩)], 300000, "2.0"⟩,
         [("app_tasks", .arr [.num 7])]) :=
  claim6_amended_legacy_migration ⟨"app", true, [], 300000, "2.0"⟩
    [("app_tasks", .arr [.num 7])] 3 "tasks" (.num 0) (.arr [.num 7]) rfl rfl
    (fun h => JVal.noConfusion h) (fun h => JVal.noConfusion h) rfl rfl

/-! ### Claim C3 -/

/-- Claim C3: on an available store, `save(E, arr D)` succeeds, an
immediate `load(E, _)` returns `arr D` through the cache, and after
evicting the cache entry for `E` a `load(E, _)` still returns `arr D`
through the medium. -/
theorem claim3_save_load_roundtrip (s : Store) (ls : LS) (now : Nat) (E : String)
    (D : List JVal) (dflt dflt2 : JVal) (hav : s.isAvailable = true)
    (hver : s.version = "2.0") :
    (save s ls now E (.arr D) none).1 = true ∧
    (load (save s ls now E (.arr D) none).2.1 (save s ls now E (.arr D) none).2.2
        now E dflt).1 = .arr D ∧
    (load (clearCache (save s ls now E (.arr D) none).2.1 (some E))
        (save s ls now E (.arr D) none).2.2 now E dflt2).1 = .arr D := by
  have hsave : save s ls now E (.arr D) none =
      (true, { s with cache := alistSet s.cache E ⟨.arr D, now⟩ },
        lsSet ls (fullKeyOf s E) (mkEnvelope s.version (isoOf now) (.arr D))) := by
    simp [save, hav]
  refine ⟨by rw [hsave], ?_, ?_⟩
  · simp only [hsave]
    have h1 := load_cache_hit
      { s with cache := alistSet s.cache E ⟨.arr D, now⟩ }
      (lsSet ls (fullKeyOf s E) (mkEnvelope s.version (isoOf now) (.arr D)))
      now E dflt (.arr D) now hav (alistFind_set_self s.cache E ⟨.arr D, now⟩)
      (by simp) rfl
    rw [h1]
  · simp only [hsave]
    have h2 := load_miss_envelope
      (clearCache { s with cache := alistSet s.cache E ⟨.arr D, now⟩ } (some E))
      (lsSet ls (fullKeyOf s E) (mkEnvelope s.version (isoOf now) (.arr D)))
      now E dflt2 (.arr D) s.version (isoOf now) hav
      (alistFind_remove_self (alistSet s.cache E ⟨.arr D, now⟩) E)
      (alistFind_set_self ls (fullKeyOf s E) (mkEnvelope s.version (isoOf now) (.arr D)))
      (by simp [clearCache, hver])
    rw [h2]

/-! ### Claim C1 -/

theorem getEntityTypes_entLS (sk ts : String) (pairs : List (String × List JVal)) :
    getEntityTypes (baseStore sk) (entLS sk ts pairs) = pairs.map Prod.fst := by
  induction pairs with
  | nil => rfl
  | cons q rest ih =>
      rw [getEntityTypes] at ih ⊢
      rw [if_neg (by simp [baseStore])] at ih ⊢
      show ((((sk ++ "_") ++ q.1) :: lsKeys (entLS sk ts rest)).filter
          (fun k => strStartsWith k (sk ++ "_"))).map
            (fun k => substringFrom k (strLen (sk ++ "_")))
        = q.1 :: rest.map Prod.fst
      simp only [List.filter_cons, strStartsWith_self_append, if_true, List.map_cons,
        substringFrom_append]
      exact congrArg (q.1 :: ·) ih

theorem lsGet_entLS (sk ts : String) (pairs : List (String × List JVal))
    (hnd : (pairs.map Prod.fst).Nodup) (q : String × List JVal) (hq : q ∈ pairs) :
    lsGet (entLS sk ts pairs) ((sk ++ "_") ++ q.1) = some (mkEnvelope "2.0" ts (.arr q.2)) := by
  induction pairs with
  | nil => cases hq
  | cons p rest ih =>
      rcases List.mem_cons.mp hq with h | h
      · subst h
        show alistFind (((sk ++ "_") ++ q.1, mkEnvelope "2.0" ts (.arr q.2)) :: entLS sk ts rest)
            ((sk ++ "_") ++ q.1) = _
        simp [alistFind]
      · have hp1 : p.1 ≠ q.1 := by
          intro he
          have hm : q.1 ∈ rest.map Prod.fst := List.mem_map.mpr ⟨q, h, rfl⟩
          exact (List.nodup_cons.mp hnd).1 (he ▸ hm)
        have hkey : ((sk ++ "_") ++ p.1) ≠ ((sk ++ "_") ++ q.1) :=
          fun he => hp1 (str_append_right_cancel _ _ _ he)
        show alistFind (((sk ++ "_") ++ p.1, mkEnvelope "2.0" ts (.arr p.2)) :: entLS sk ts rest)
            ((sk ++ "_") ++ q.1) = _
        rw [alistFind, if_neg hkey]
        exact ih (List.nodup_cons.mp hnd).2 h

theorem exportFold_entLS (sk ts : String) (pairs : List (String × List JVal)) (now : Nat)
    (hnd : (pairs.map Prod.fst).Nodup) :
    ∀ (rem : List (String × List JVal)) (s : Store) (acc : List (String × JVal)),
      s.storageKey = sk → s.isAvailable = true →
      (∀ q ∈ rem, cacheFind s.cache q.1 = none) →
      (∀ q ∈ rem, q ∈ pairs) →
      (rem.map Prod.fst).Nodup →
      (∀ q ∈ rem, q.1 ∉ acc.map Prod.fst) →
      (exportFold now (entLS sk ts pairs) (rem.map Prod.fst) s acc).1
        = acc ++ rem.map (fun q => (q.1, JVal.arr q.2)) := by
  intro rem
  induction rem with
  | nil => intro s acc _ _ _ _ _ _; simp [exportFold]
  | cons q rest ih =>
      intro s acc hsk hav hc hsub hnd2 hacc
      have hfk : fullKeyOf s q.1 = (sk ++ "_") ++ q.1 := by rw [fullKeyOf, hsk]
      have hls : lsGet (entLS sk ts pairs) (fullKeyOf s q.1)
          = some (mkEnvelope "2.0" ts (.arr q.2)) := by
        rw [hfk]
        exact lsGet_entLS sk ts pairs hnd q (hsub q (List.mem_cons_self q rest))
      have hload := load_miss_envelope s (entLS sk ts pairs) now q.1 (.arr []) (.arr q.2)
        "2.0" ts hav (hc q (List.mem_cons_self q rest)) hls rfl
      show (exportFold now (entLS sk ts pairs) (q.1 :: rest.map Prod.fst) s acc).1 = _
      rw [exportFold]
      simp only [hload]
      rw [show alistSet acc q.1 (JVal.arr q.2) = acc ++ [(q.1, JVal.arr q.2)] from
        alistSet_of_not_mem acc q.1 _ (hacc q (List.mem_cons_self q rest))]
      rw [ih { s with cache := alistSet s.cache q.1 ⟨.arr q.2, now⟩ } (acc ++ [(q.1, JVal.arr q.2)])
        hsk hav
        (fun q' hq' => by
          have hne : q'.1 ≠ q.1 := by
            intro he
            have hm : q'.1 ∈ rest.map Prod.fst := List.mem_map.mpr ⟨q', hq', rfl⟩
            exact (List.nodup_cons.mp hnd2).1 (he ▸ hm)
          show alistFind (alistSet s.cache q.1 _) q'.1 = none
          rw [alistFind_set_ne s.cache q.1 q'.1 _ hne]
          exact hc q' (List.mem_cons_of_mem q hq'))
        (fun q' hq' => hsub q' (List.mem_cons_of_mem q hq'))
        (List.nodup_cons.mp hnd2).2
        (fun q' hq' => by
          have hne : q'.1 ≠ q.1 := by
            intro he
            have hm : q'.1 ∈ rest.map Prod.fst := List.mem_map.mpr ⟨q', hq', rfl⟩
            exact (List.nodup_cons.mp hnd2).1 (he ▸ hm)
          simp only [List.map_append, List.mem_append]
          rintro (h | h)
          · exact hacc q' (List.mem_cons_of_mem q hq') h
          · simp at h
            exact hne h)]
      simp

theorem exportData_entLS (sk ts : String) (pairs : List (String × List JVal)) (now : Nat)
    (hnd : (pairs.map Prod.fst).Nodup) :
    (exportData (baseStore sk) (entLS sk ts pairs) now).1
      = .obj [("version", .str "2.0"), ("timestamp", .str (isoOf now)),
              ("entities", .obj (pairs.map (fun q => (q.1, JVal.arr q.2))))] := by
  rw [exportData, if_neg (by simp [baseStore])]
  show JVal.obj [("version", .str (baseStore sk).version), ("timestamp", .str (isoOf now)),
      ("entities", .obj (exportFold now (entLS sk ts pairs)
        (getEntityTypes (baseStore sk) (entLS sk ts pairs)) (baseStore sk) []).1)] = _
  rw [getEntityTypes_entLS]
  rw [exportFold_entLS sk ts pairs now hnd pairs (baseStore sk) [] rfl rfl
    (fun q _ => rfl) (fun q h => h) hnd (fun q _ => by simp)]
  simp [baseStore]

theorem save_none_avail (s : Store) (ls : LS) (now : Nat) (ety : String) (data : JVal)
    (hav : s.isAvailable = true) :
    save s ls now ety data none
      = (true, { s with cache := alistSet s.cache ety ⟨data, now⟩ },
         lsSet ls (fullKeyOf s ety) (mkEnvelope s.version (isoOf now) data)) := by
  simp [save, hav]

theorem importLoopTrue_ok (now : Nat) :
    ∀ (L : List (String × JVal)) (s : Store) (ls : LS),
      s.isAvailable = true → (importLoop now true L s ls).1 = true := by
  intro L
  induction L with
  | nil => intro s ls _; rfl
  | cons q rest ih =>
      intro s ls hav
      obtain ⟨ety, v⟩ := q
      simp only [importLoop, if_true]
      exact ih _ _
        ((save_config _ _ _ _ _ _).2.1.trans ((load_config s ls now ety (.arr [])).2.1.trans hav))

theorem importLoopTrue_cache_frame (now : Nat) :
    ∀ (L : List (String × JVal)) (s : Store) (ls : LS) (k : String),
      (∀ q ∈ L, (q : String × JVal).1 ≠ k) →
      cacheFind ((importLoop now true L s ls).2.1).cache k = cacheFind s.cache k := by
  intro L
  induction L with
  | nil => intro s ls k _; rfl
  | cons q rest ih =>
      intro s ls k hk
      obtain ⟨ety, v⟩ := q
      simp only [importLoop, if_true]
      rw [ih _ _ k (fun q' hq' => hk q' (List.mem_cons_of_mem _ hq'))]
      have hne : k ≠ ety := fun he => hk (ety, v) (List.mem_cons_self _ _) he.symm
      by_cases hav1 : ((load s ls now ety (.arr [])).2.1).isAvailable = true
      · rw [save_none_avail _ _ _ _ _ hav1]
        show alistFind (alistSet _ ety _) k = _
        rw [alistFind_set_ne _ ety k _ hne]
        exact load_cache_frame s ls now ety (.arr []) k hne
      · rw [show (save (load s ls now ety (.arr [])).2.1 ls now ety v none)
            = (false, (load s ls now ety (.arr [])).2.1, ls) from by
          simp [save, Bool.not_eq_true] at hav1 ⊢
          simp [hav1]]
        exact load_cache_frame s ls now ety (.arr []) k hne

theorem importLoopTrue_sets (now : Nat) :
    ∀ (L : List (String × JVal)) (s : Store) (ls : LS),
      s.isAvailable = true → (L.map Prod.fst).Nodup →
      ∀ q ∈ L, cacheFind ((importLoop now true L s ls).2.1).cache q.1
        = some (CacheEntry.mk q.2 now) := by
  intro L
  induction L with
  | nil => intro s ls _ _ q hq; cases hq
  | cons p rest ih =>
      intro s ls hav hnd q hq
      obtain ⟨ety, v⟩ := p
      have hav1 : ((load s ls now ety (.arr [])).2.1).isAvailable = true :=
        (load_config s ls now ety (.arr [])).2.1.trans hav
      have hav2 :
          ((save (load s ls now ety (.arr [])).2.1 ls now ety v none).2.1).isAvailable = true :=
        (save_config _ _ _ _ _ _).2.1.trans hav1
      simp only [importLoop, if_true]
      rcases List.mem_cons.mp hq with h | h
      · rw [h]
        rw [importLoopTrue_cache_frame now rest _ _ ety
          (fun q' hq' => by
            intro he
            have hm : q'.1 ∈ rest.map Prod.fst := List.mem_map.mpr ⟨q', hq', rfl⟩
            exact (List.nodup_cons.mp hnd).1 (he ▸ hm))]
        rw [save_none_avail _ _ _ _ _ hav1]
        exact alistFind_set_self _ ety _
      · exact ih _ _ hav2 (List.nodup_cons.mp hnd).2 q h

/-- Claim C1 fails as stated: on a store over an initially empty
medium, after construction (which writes the meta record) and one
saved collection, `importData(exportData(), overwrite=true)` into a
fresh store over an empty medium returns `false`, not `true`: export
includes `entities.meta = load("meta", [])`, and the meta record's
envelope has no `data` field, so that entry is `undefined` — not an
ordered sequence — and import's validation rejects the whole payload.
The second conjunct shows the original store really holds an entity
collection. -/
theorem claim1_counterexample :
    (importData (mkStore "app" true [] 0 none).1 (mkStore "app" true [] 0 none).2 5
      (exportData
        (save (mkStore "app" true [] 0 none).1 (mkStore "app" true [] 0 none).2 1 "tasks"
          (.arr [.obj [("id", .num 1)]]) none).2.1
        (save (mkStore "app" true [] 0 none).1 (mkStore "app" true [] 0 none).2 1 "tasks"
          (.arr [.obj [("id", .num 1)]]) none).2.2 5).1
      true).1 = false ∧
    (load (save (mkStore "app" true [] 0 none).1 (mkStore "app" true [] 0 none).2 1 "tasks"
          (.arr [.obj [("id", .num 1)]]) none).2.1
        (save (mkStore "app" true [] 0 none).1 (mkStore "app" true [] 0 none).2 1 "tasks"
          (.arr [.obj [("id", .num 1)]]) none).2.2 1 "tasks" (.num 0)).1
      = .arr [.obj [("id", .num 1)]] := ⟨rfl, rfl⟩

/-- Claim C1, amended: export/import fidelity holds once the meta
record is absent from the original store's namespace (for a namespace
holding only entity-collection envelopes, with distinct entity types):
`importData(exportData(), overwrite=true)` on a fresh store over an
empty medium returns `true`, and `load` on the fresh store returns
each original collection.  With the meta record present — as after any
normal construction — the exported `entities` contains the
non-sequence `meta` entry and import fails validation (see
`claim1_counterexample`). -/
theorem claim1_amended_export_import (sk sk2 ts : String)
    (pairs : List (String × List JVal)) (now t : Nat) (dflt : JVal)
    (hnd : (pairs.map Prod.fst).Nodup) :
    (importData (mkStore sk2 true [] t none).1 (mkStore sk2 true [] t none).2 now
        (exportData (baseStore sk) (entLS sk ts pairs) now).1 true).1 = true ∧
    ∀ q ∈ pairs,
      (load (importData (mkStore sk2 true [] t none).1 (mkStore sk2 true [] t none).2 now
            (exportData (baseStore sk) (entLS sk ts pairs) now).1 true).2.1
          (importData (mkStore sk2 true [] t none).1 (mkStore sk2 true [] t none).2 now
            (exportData (baseStore sk) (entLS sk ts pairs) now).1 true).2.2
          now q.1 dflt).1 = JVal.arr q.2 := by
  have hexp := exportData_entLS sk ts pairs now hnd
  have hfreshAv : (mkStore sk2 true [] t none).1.isAvailable = true := rfl
  have hall : (pairs.map (fun q => (q.1, JVal.arr q.2))).all (fun kv => jvIsArr kv.2) = true :=
    List.all_eq_true.mpr (fun kv hkv => by
      obtain ⟨q, hqm, hqe⟩ := List.mem_map.mp hkv
      rw [← hqe]
      rfl)
  have hnd2 : ((pairs.map (fun q => (q.1, JVal.arr q.2))).map Prod.fst).Nodup := by
    have he : (pairs.map (fun q => (q.1, JVal.arr q.2))).map Prod.fst = pairs.map Prod.fst := by
      rw [List.map_map]
      rfl
    rw [he]
    exact hnd
  have himp : importData (mkStore sk2 true [] t none).1 (mkStore sk2 true [] t none).2 now
        (exportData (baseStore sk) (entLS sk ts pairs) now).1 true
      = importLoop now true (pairs.map (fun q => (q.1, JVal.arr q.2)))
          (mkStore sk2 true [] t none).1 (mkStore sk2 true [] t none).2 := by
    rw [importData]
    rw [if_neg (by simp [hexp, hfreshAv, jPropD, alistFind, jsFalsy, jsTruthy])]
    rw [if_neg (by simp [hexp, validateImportData, jPropD, alistFind, jsFalsy, jsTruthy,
      typeofObject, entPairs, hall])]
    rw [hexp]
    rw [show jPropD (JVal.obj [("version", JVal.str "2.0"), ("timestamp", JVal.str (isoOf now)),
        ("entities", JVal.obj (pairs.map (fun q => (q.1, JVal.arr q.2))))]) "entities"
      = JVal.obj (pairs.map (fun q => (q.1, JVal.arr q.2))) from by simp [jPropD, alistFind]]
    rfl
  rw [himp]
  refine ⟨importLoopTrue_ok now _ _ _ hfreshAv, fun q hq => ?_⟩
  have hcf := importLoopTrue_sets now (pairs.map (fun q => (q.1, JVal.arr q.2)))
    (mkStore sk2 true [] t none).1 (mkStore sk2 true [] t none).2 hfreshAv hnd2
    (q.1, JVal.arr q.2) (List.mem_map.mpr ⟨q, hq, rfl⟩)
  have havF : ((importLoop now true (pairs.map (fun q => (q.1, JVal.arr q.2)))
      (mkStore sk2 true [] t none).1 (mkStore sk2 true [] t none).2).2.1).isAvailable = true :=
    (importLoop_config now true _ _ _).2.1.trans hfreshAv
  rw [load_cache_hit _ _ now q.1 dflt (JVal.arr q.2) now havF hcf (by simp) rfl]

/-- Witness for the amended C1 at a one-collection store. -/
theorem claim1_witness :
    (importData (mkStore "app2" true [] 3 none).1 (mkStore "app2" true [] 3 none).2 9
        (exportData (baseStore "app") (entLS "app" "ts" [("tasks", [.obj [("id", .num 1)]])]) 9).1
        true).1 = true ∧
    (load (importData (mkStore "app2" true [] 3 none).1 (mkStore "app2" true [] 3 none).2 9
          (exportData (baseStore "app") (entLS "app" "ts" [("tasks", [.obj [("id", .num 1)]])]) 9).1
          true).2.1
        (importData (mkStore "app2" true [] 3 none).1 (mkStore "app2" true [] 3 none).2 9
          (exportData (baseStore "app") (entLS "app" "ts" [("tasks", [.obj [("id", .num 1)]])]) 9).1
          true).2.2
        9 "tasks" (.num 0)).1 = JVal.arr [.obj [("id", .num 1)]] :=
  ⟨(claim1_amended_export_import "app" "app2" "ts" [("tasks", [.obj [("id", .num 1)]])] 9 3
      (.num 0) (by simp)).1,
   (claim1_amended_export_import "app" "app2" "ts" [("tasks", [.obj [("id", .num 1)]])] 9 3
      (.num 0) (by simp)).2 ("tasks", [.obj [("id", .num 1)]]) (List.mem_singleton.mpr rfl)⟩

/-- Witness for C3 at a concrete store and collection. -/
theorem claim3_witness :
    (save ⟨"app", true, [], 300000, "2.0"⟩ [] 4 "tasks" (.arr [.obj [("id", .num 1)]]) none).1
      = true ∧
    (load (save ⟨"app", true, [], 300000, "2.0"⟩ [] 4 "tasks" (.arr [.obj [("id", .num 1)]]) none).2.1
        (save ⟨"app", true, [], 300000, "2.0"⟩ [] 4 "tasks" (.arr [.obj [("id", .num 1)]]) none).2.2
        4 "tasks" (.num 0)).1 = .arr [.obj [("id", .num 1)]] ∧
    (load (clearCache (save ⟨"app", true, [], 300000, "2.0"⟩ [] 4 "tasks" (.arr [.obj [("id", .num 1)]]) none).2.1 (some "tasks"))
        (save ⟨"app", true, [], 300000, "2.0"⟩ [] 4 "tasks" (.arr [.obj [("id", .num 1)]]) none).2.2
        4 "tasks" (.num 0)).1 = .arr [.obj [("id", .num 1)]] :=
  claim3_save_load_roundtrip ⟨"app", true, [], 300000, "2.0"⟩ [] 4 "tasks"
    [.obj [("id", .num 1)]] (.num 0) (.num 0) rfl rfl

end ESM
